import Mathlib

set_option maxRecDepth 8000

/-! Shallow embedding of `src/archivator.cpp`: the directory archiver's scanner, codec and
verifier, modelled over byte lists.  Bytes are `Fin 256`; the 8-byte `uintmax_t` size field
is serialized little-endian (the x86-64 in-memory representation the source relies on).
The `std::ofstream` the archive is written through is a byte list plus a failbit
(`operator<<(streambuf*)` sets failbit when it inserts no characters, i.e. for an empty
source file, and every later write on the failed stream is a no-op).  Uninitialized buffer
memory is supplied by an explicit `junk` parameter so that theorems quantify over it. -/

/-- A raw byte of the archive stream or of a file's content. -/
abbrev Byte := Fin 256

/-- Truncation of a machine value to one byte. -/
def natToByte (n : Nat) : Byte := ⟨n % 256, Nat.mod_lt _ (by decide)⟩

/-- The 8 bytes of a `uintmax_t` value as written by
`archive.write(reinterpret_cast<const char*>(&size), sizeof(std::uintmax_t))`,
little-endian. -/
def toLE8 (n : Nat) : List Byte :=
  [natToByte n, natToByte (n / 256), natToByte (n / 65536), natToByte (n / 16777216),
   natToByte (n / 4294967296), natToByte (n / 1099511627776),
   natToByte (n / 281474976710656), natToByte (n / 72057594037927936)]

/-- The `uintmax_t` value read back from little-endian bytes. -/
def fromLE8 (l : List Byte) : Nat := l.foldr (fun b acc => b.val + 256 * acc) 0

/-- `std::getline(archive, filename, '\0')` on the remaining stream bytes: the bytes before
the first NUL, the bytes after it, and whether the NUL delimiter was found before the
stream ended. -/
def splitNul : List Byte → List Byte × List Byte × Bool
  | [] => ([], [], false)
  | b :: rest =>
    if b = 0 then ([], rest, true)
    else
      let r := splitNul rest
      (b :: r.1, r.2.1, r.2.2)

/-- `strcmp(a, b) == 0` on two equal-length heap buffers (line 147), under the idealization
that each buffer is followed in memory by a terminating zero: the comparison stops at the
first NUL byte, so positions after an embedded NUL are never compared. -/
def cstrEq : List Byte → List Byte → Bool
  | [], [] => true
  | [], _ :: _ => false
  | _ :: _, [] => false
  | a :: as, b :: bs => if a ≠ b then false else if a = 0 then true else cstrEq as bs

/-- The state of the `std::ofstream` the archive is written through: the bytes written so
far and the stream's failbit. -/
structure OStream where
  bytes : List Byte
  fail : Bool

/-- `archive << string`, `archive << char` and `archive.write(...)`: append the bytes when
the stream is good, do nothing once it has failed. -/
def OStream.write (s : OStream) (bs : List Byte) : OStream :=
  if s.fail then s else { s with bytes := s.bytes ++ bs }

/-- `archive << inputFile.rdbuf()`: insert the whole source file; the C++ standard makes
this set failbit when zero characters are inserted, which is exactly the empty-file case. -/
def OStream.insertAll (s : OStream) (bs : List Byte) : OStream :=
  if s.fail then s
  else if bs = [] then { s with fail := true }
  else { s with bytes := s.bytes ++ bs }

/-- One regular file of the source tree, in `recursive_directory_iterator` discovery order:
`sub` is its subdirectory component path relative to the scanned root (`[]` = directly in
the root), `name` its base filename (`entry.path().filename()`), `content` its bytes, and
`openable` whether an `ifstream` on it opens.  `fs::file_size` is `content.length`. -/
structure SrcFile where
  sub : List (List Byte)
  name : List Byte
  content : List Byte
  openable : Bool
deriving DecidableEq

/-- Lines 67-80: write one scanned file's record: the header `filename '\0' size`, then,
when the file opens, its content via `rdbuf`; an unopenable file is logged and only its
content is skipped — its header has already been written. -/
def writeRecord (s : OStream) (f : SrcFile) : OStream :=
  let s1 := ((s.write f.name).write [0]).write (toLE8 f.content.length)
  if f.openable then s1.insertAll f.content else s1

/-- Lines 47-83 (the writing part of `archiveFiles`): the bytes of the archive file
produced for the scanned directory `d` (scan order = list order). -/
def archiveBytes (d : List SrcFile) : List Byte :=
  (d.foldl writeRecord { bytes := [], fail := false }).bytes

/-- The ideal record framing `name ++ '\0' ++ size ++ content` for each file in order: what
the archive holds when every file opens and no empty-content insertion tripped the
failbit. -/
def encodeList : List SrcFile → List Byte
  | [] => []
  | f :: rest => f.name ++ [0] ++ toLE8 f.content.length ++ f.content ++ encodeList rest

/-- Lines 96-113, the extraction loop, structurally recursive on `fuel` (the real loop
consumes stream bytes every time it continues, so `data.length + 1` fuel always suffices).
The result is the list of `(filename, bytes)` writes performed, in order.  `creatable n`
models whether `std::ofstream(targetFolder + "/" + n)` opens.  When the output file cannot
be created the code `continue`s without consuming the record's content bytes; when a read
comes up short the stream's eof/fail state makes the loop exit after the current write,
with the unread tail of the buffer left as uninitialized memory. -/
def unarLoopF (junk : Nat → Byte) (creatable : List Byte → Bool) :
    Nat → List Byte → List (List Byte × List Byte)
  | 0, _ => []
  | fuel + 1, data =>
    let name := (splitNul data).1
    let rest := (splitNul data).2.1
    let found := (splitNul data).2.2
    if name = [] then []
    else if found then
      if rest.length < 8 then
        let size := fromLE8 (rest ++ (List.range (8 - rest.length)).map junk)
        if creatable name then [(name, (List.range size).map junk)] else []
      else
        let size := fromLE8 (rest.take 8)
        let rest2 := rest.drop 8
        if creatable name then
          if size ≤ rest2.length then
            (name, rest2.take size) :: unarLoopF junk creatable fuel (rest2.drop size)
          else
            [(name, rest2 ++ (List.range (size - rest2.length)).map junk)]
        else
          unarLoopF junk creatable fuel rest2
    else
      let size := fromLE8 ((List.range 8).map junk)
      if creatable name then [(name, (List.range size).map junk)] else []

/-- Lines 86-117, `unarchiveFiles`: extract an archive stream into the (freshly created)
target folder; the result is the sequence of file writes performed. -/
def unarchiveFiles (junk : Nat → Byte) (creatable : List Byte → Bool) (data : List Byte) :
    List (List Byte × List Byte) :=
  unarLoopF junk creatable (data.length + 1) data

/-- The content the flat target folder holds under filename `n` after a sequence of
truncating writes: the last write to that name wins. -/
def extractedContent (writes : List (List Byte × List Byte)) (n : List Byte) :
    Option (List Byte) :=
  (writes.reverse.find? fun p => decide (p.1 = n)).map fun p => p.2

/-- Lines 135-137: the live file the verifier finds at `folderPath + "/" + name` — the
scanned file that sits directly in the root and bears that base name. -/
def lookupTop (d : List SrcFile) (n : List Byte) : Option SrcFile :=
  d.find? fun f => decide (f.sub = [] ∧ f.name = n)

/-- The verifier's per-record check (lines 135-156) for a record whose content read had
already failed (the buffer is wholly uninitialized): look the name up in the folder,
compare sizes, then run `strcmp` on the buffers.  `none` models `return false`;
`some count` means the failed stream then ends the loop with `count` records decoded. -/
def checkStop (junk : Nat → Byte) (d : List SrcFile) (name : List Byte) (size : Nat)
    (bufArc : List Byte) (count : Nat) : Option Nat :=
  match lookupTop d name with
  | none => none
  | some g =>
    if g.content.length ≠ size then none
    else
      let bufFile := if g.openable then g.content else (List.range size).map junk
      if cstrEq bufArc bufFile then some count else none

/-- Lines 127-157, the verifier's decode-and-compare loop (fuel-recursive like the
extraction loop): `none` = some per-record check failed (`return false`), `some k` = the
loop ended cleanly with `k` records decoded and matched. -/
def checkLoopF (junk : Nat → Byte) (d : List SrcFile) :
    Nat → List Byte → Nat → Option Nat
  | 0, _, count => some count
  | fuel + 1, data, count =>
    let name := (splitNul data).1
    let rest := (splitNul data).2.1
    let found := (splitNul data).2.2
    if name = [] then some count
    else if found then
      if rest.length < 8 then
        let size := fromLE8 (rest ++ (List.range (8 - rest.length)).map junk)
        checkStop junk d name size ((List.range size).map junk) (count + 1)
      else
        let size := fromLE8 (rest.take 8)
        let rest2 := rest.drop 8
        match lookupTop d name with
        | none => none
        | some g =>
          if g.content.length ≠ size then none
          else
            let bufFile := if g.openable then g.content else (List.range size).map junk
            if size ≤ rest2.length then
              if cstrEq (rest2.take size) bufFile then
                checkLoopF junk d fuel (rest2.drop size) (count + 1)
              else none
            else
              if cstrEq (rest2 ++ (List.range (size - rest2.length)).map junk) bufFile then
                some (count + 1)
              else none
    else
      let size := fromLE8 ((List.range 8).map junk)
      checkStop junk d name size ((List.range size).map junk) (count + 1)

/-- Lines 161-166: the number of regular files found by a fresh recursive walk of the
folder. -/
def countRegularFiles (d : List SrcFile) : Nat := d.length

/-- Lines 119-170, `checkArchive` (the verifier `isEquivalent`): a `none` archive means the
archive file could not be opened for reading.  Otherwise decode and match every record,
then independently recount the folder's regular files and require the count to equal the
number of records decoded. -/
def checkArchive (junk : Nat → Byte) (archive : Option (List Byte)) (d : List SrcFile) :
    Bool :=
  match archive with
  | none => false
  | some data =>
    match checkLoopF junk d (data.length + 1) data 0 with
    | none => false
    | some k => decide (countRegularFiles d = k)

/-- Lines 41-84, `archiveFiles`: when the verifier reports the existing archive equivalent,
report and return with no write; otherwise, when the archive opens for writing, scan the
folder and rewrite the archive.  Returns the final on-disk archive contents (`none` =
still absent) paired with whether a write occurred. -/
def archiveFiles (junk : Nat → Byte) (existing : Option (List Byte)) (canWrite : Bool)
    (d : List SrcFile) : Option (List Byte) × Bool :=
  if checkArchive junk existing d then (existing, false)
  else if canWrite then (some (archiveBytes d), true)
  else (existing, false)

/-- Filesystem facts about any scanned directory: base filenames are nonempty, contain no
NUL byte, and file sizes fit in `uintmax_t`. -/
def GoodNames (d : List SrcFile) : Prop :=
  ∀ f ∈ d, f.name ≠ [] ∧ (0 : Byte) ∉ f.name ∧ f.content.length < 18446744073709551616

/-- Every scanned file opens for reading. -/
def AllOpen (d : List SrcFile) : Prop := ∀ f ∈ d, f.openable = true

/-- Every scanned file sits directly in the scanned root (no subdirectories). -/
def Flat (d : List SrcFile) : Prop := ∀ f ∈ d, f.sub = []

/-- No empty file is followed by a further file in scan order (an empty `rdbuf` insertion
sets the archive stream's failbit, after which every later write is silently dropped). -/
def NoEarlyEmpty (d : List SrcFile) : Prop := ∀ f ∈ d.dropLast, f.content ≠ []

instance (d : List SrcFile) : Decidable (GoodNames d) := List.decidableBAll _ d

instance (d : List SrcFile) : Decidable (AllOpen d) := List.decidableBAll _ d

instance (d : List SrcFile) : Decidable (Flat d) := List.decidableBAll _ d

instance (d : List SrcFile) : Decidable (NoEarlyEmpty d) := List.decidableBAll _ d.dropLast

/-! ### Concrete inputs used by the claim theorems -/

/-- A directory holding one file `a` whose content is `97 0 99`: it differs from the
archived content `97 0 98` only at the position after the embedded zero byte. -/
def dirC1 : List SrcFile :=
  [{ sub := [], name := [97], content := [97, 0, 99], openable := true }]

/-- An archive holding one record, name `a`, size 3, content `97 0 98`. -/
def arcC1 : List Byte :=
  encodeList [{ sub := [], name := [97], content := [97, 0, 98], openable := true }]

/-- A directory whose first scanned file is empty and is followed by a second file. -/
def dirZF : List SrcFile :=
  [{ sub := [], name := [98], content := [], openable := true },
   { sub := [], name := [97], content := [120], openable := true }]

/-- A directory holding `s/a` and `t/a`: two files in different subdirectories sharing the
base filename `a`, used by the C2 counterexample. -/
def dirColl : List SrcFile :=
  [{ sub := [[115]], name := [97], content := [120], openable := true },
   { sub := [[116]], name := [97], content := [121, 122], openable := true }]

/-- A flat directory whose first file cannot be opened for reading. -/
def dirC4 : List SrcFile :=
  [{ sub := [], name := [97], content := [98, 99, 100], openable := false },
   { sub := [], name := [101], content := [102], openable := true }]

/-- An archive of two records: `a` (content `120 121`) followed by `b` (content `122`). -/
def arcC5 : List Byte :=
  encodeList
    [{ sub := [], name := [97], content := [120, 121], openable := true },
     { sub := [], name := [98], content := [122], openable := true }]

/-- A truncated archive: the record for `a` declares size 5, but only the two content
bytes `120 121` remain in the stream. -/
def arcC6 : List Byte := [97] ++ [0] ++ toLE8 5 ++ [120, 121]

/-- A directory with one file inside a subdirectory `s`: the verifier's flat lookup at
`folderPath + "/" + name` will not find it. -/
def dirC3 : List SrcFile :=
  [{ sub := [[115]], name := [97], content := [120], openable := true }]

/-- A flat two-file directory (one content holding an embedded zero byte), used to witness
the amended idempotence theorem. -/
def dirC3W : List SrcFile :=
  [{ sub := [], name := [97], content := [120, 0, 121], openable := true },
   { sub := [], name := [98], content := [122], openable := true }]

/-- The spec's own round-trip scenario: `a.txt` = `xyz` (3 bytes) and `b.bin` empty, the
empty file scanned last. -/
def dirRT : List SrcFile :=
  [{ sub := [], name := [97], content := [120, 121, 122], openable := true },
   { sub := [], name := [98], content := [], openable := true }]

/-- A directory whose first scanned file is empty, followed by two files in different
subdirectories sharing the base name `a`: the failbit loses both `a` records. -/
def dirC10bad : List SrcFile :=
  [{ sub := [], name := [122], content := [], openable := true },
   { sub := [[115]], name := [97], content := [120], openable := true },
   { sub := [[116]], name := [97], content := [121], openable := true }]

/-- Two nonempty files `s/a` and `t/a` sharing the base filename `a`, used to witness the
amended collision theorem. -/
def dirC10W : List SrcFile :=
  [{ sub := [[115]], name := [97], content := [100, 101], openable := true },
   { sub := [[116]], name := [97], content := [102], openable := true }]

/-- A one-file directory used to witness the count-mismatch theorem against an empty
archive stream. -/
def dirC7W : List SrcFile :=
  [{ sub := [], name := [97], content := [], openable := true }]

/-! ### Helper lemmas -/

theorem splitNul_append (name rest : List Byte) (h : (0 : Byte) ∉ name) :
    splitNul (name ++ 0 :: rest) = (name, rest, true) := by
  induction name with
  | nil => simp [splitNul]
  | cons b bs ih =>
    have hb : b ≠ 0 := fun hb => h (by simp [hb])
    have hbs : (0 : Byte) ∉ bs := fun hm => h (List.mem_cons_of_mem _ hm)
    simp [splitNul, hb, ih hbs]

theorem toLE8_length (n : Nat) : (toLE8 n).length = 8 := rfl

theorem fromLE8_toLE8 (n : Nat) (h : n < 18446744073709551616) :
    fromLE8 (toLE8 n) = n := by
  simp only [fromLE8, toLE8, natToByte, List.foldr]
  omega

theorem cstrEq_refl (l : List Byte) : cstrEq l l = true := by
  induction l with
  | nil => rfl
  | cons a as ih => simp [cstrEq, ih]

theorem take_append_self {α : Type} (a b : List α) : (a ++ b).take a.length = a := by
  induction a with
  | nil => rfl
  | cons x xs ih => simp [ih]

theorem drop_append_self {α : Type} (a b : List α) : (a ++ b).drop a.length = b := by
  induction a with
  | nil => rfl
  | cons x xs ih => simp [ih]

theorem encodeList_length (rs : List SrcFile) : rs.length ≤ (encodeList rs).length := by
  induction rs with
  | nil => simp [encodeList]
  | cons f rest ih => simp [encodeList]; omega

theorem foldl_writeRecord_bytes (d : List SrcFile) :
    ∀ B : List Byte, AllOpen d → NoEarlyEmpty d →
      (d.foldl writeRecord { bytes := B, fail := false }).bytes = B ++ encodeList d := by
  induction d with
  | nil => intro B _ _; simp [encodeList]
  | cons f rest ih =>
    intro B hopen hne
    have hf : f.openable = true := hopen f (List.mem_cons_self f rest)
    have hrestopen : AllOpen rest := fun g hg => hopen g (List.mem_cons_of_mem f hg)
    simp only [List.foldl_cons, writeRecord, hf, if_pos]
    cases hr : rest with
    | nil =>
      cases hc : f.content with
      | nil =>
        simp [OStream.write, OStream.insertAll, encodeList, hc]
      | cons c cs =>
        simp [OStream.write, OStream.insertAll, encodeList, hc]
    | cons r rs =>
      have hfc : f.content ≠ [] := by
        apply hne
        rw [hr]
        simp [List.dropLast]
      have hrestne : NoEarlyEmpty rest := by
        intro g hg
        apply hne
        rw [hr] at hg ⊢
        simp [List.dropLast] at hg ⊢
        exact Or.inr hg
      rw [← hr] at *
      simp only [OStream.write, OStream.insertAll, Bool.false_eq_true, if_neg, if_false,
        hfc]
      rw [ih _ hrestopen hrestne]
      simp [encodeList]

theorem archiveBytes_eq_encodeList (d : List SrcFile) (hopen : AllOpen d)
    (hne : NoEarlyEmpty d) : archiveBytes d = encodeList d := by
  rw [archiveBytes, foldl_writeRecord_bytes d [] hopen hne]
  simp

theorem take8_toLE8 (n : Nat) (Y : List Byte) : (toLE8 n ++ Y).take 8 = toLE8 n :=
  take_append_self (toLE8 n) Y

theorem drop8_toLE8 (n : Nat) (Y : List Byte) : (toLE8 n ++ Y).drop 8 = Y :=
  drop_append_self (toLE8 n) Y

theorem unarLoopF_cons (junk : Nat → Byte) (creatable : List Byte → Bool) (fuel : Nat)
    (name content tail : List Byte) (hne : name ≠ []) (hnz : (0 : Byte) ∉ name)
    (hlen : content.length < 18446744073709551616) :
    unarLoopF junk creatable (fuel + 1)
        (name ++ 0 :: (toLE8 content.length ++ (content ++ tail))) =
      if creatable name then
        (name, content) :: unarLoopF junk creatable fuel tail
      else unarLoopF junk creatable fuel (content ++ tail) := by
  simp only [unarLoopF, splitNul_append _ _ hnz]
  rw [if_neg hne]
  simp only [if_true, take8_toLE8, drop8_toLE8, fromLE8_toLE8 _ hlen]
  rw [if_neg (by simp [toLE8_length])]
  cases hc : creatable name with
  | false => simp
  | true =>
    rw [if_pos rfl, if_pos (by simp), take_append_self, drop_append_self]
    simp

theorem encodeList_cons (f : SrcFile) (rest : List SrcFile) :
    encodeList (f :: rest) =
      f.name ++ 0 :: (toLE8 f.content.length ++ (f.content ++ encodeList rest)) := by
  simp [encodeList]

theorem unarLoopF_encode (junk : Nat → Byte) (rs : List SrcFile) :
    ∀ fuel : Nat, rs.length < fuel → GoodNames rs →
      unarLoopF junk (fun _ => true) fuel (encodeList rs) =
        rs.map fun f => (f.name, f.content) := by
  induction rs with
  | nil =>
    intro fuel hf _
    cases fuel with
    | zero => omega
    | succ k => simp [unarLoopF, encodeList, splitNul]
  | cons f rest ih =>
    intro fuel hf hg
    cases fuel with
    | zero => omega
    | succ k =>
      obtain ⟨hne, hnz, hlen⟩ := hg f (List.mem_cons_self f rest)
      have hgrest : GoodNames rest := fun g hgm => hg g (List.mem_cons_of_mem f hgm)
      rw [encodeList_cons, unarLoopF_cons junk _ k f.name f.content (encodeList rest)
        hne hnz hlen]
      rw [if_pos rfl, ih k (by simp at hf; omega) hgrest]
      simp

theorem unarchiveFiles_encode (junk : Nat → Byte) (rs : List SrcFile)
    (hg : GoodNames rs) :
    unarchiveFiles junk (fun _ => true) (encodeList rs) =
      rs.map fun f => (f.name, f.content) := by
  have h := encodeList_length rs
  exact unarLoopF_encode junk rs ((encodeList rs).length + 1) (by omega) hg

theorem checkLoopF_cons (junk : Nat → Byte) (d : List SrcFile) (fuel : Nat)
    (name content tail : List Byte) (g : SrcFile)
    (hne : name ≠ []) (hnz : (0 : Byte) ∉ name)
    (hlen : content.length < 18446744073709551616)
    (hlook : lookupTop d name = some g) (hgo : g.openable = true)
    (hgc : g.content = content) (count : Nat) :
    checkLoopF junk d (fuel + 1)
        (name ++ 0 :: (toLE8 content.length ++ (content ++ tail))) count =
      checkLoopF junk d fuel tail (count + 1) := by
  simp only [checkLoopF, splitNul_append _ _ hnz]
  rw [if_neg hne]
  simp only [if_true, take8_toLE8, drop8_toLE8, fromLE8_toLE8 _ hlen]
  rw [if_neg (by simp [toLE8_length])]
  rw [hlook]
  simp only [hgc, hgo, if_true]
  rw [if_neg (by simp), if_pos (by simp), take_append_self, drop_append_self,
    if_pos (cstrEq_refl content)]

theorem checkLoopF_encode (junk : Nat → Byte) (d : List SrcFile) (rs : List SrcFile) :
    ∀ fuel count : Nat, rs.length < fuel →
      (∀ f ∈ rs, f.name ≠ [] ∧ (0 : Byte) ∉ f.name ∧
        f.content.length < 18446744073709551616 ∧
        ∃ g, lookupTop d f.name = some g ∧ g.openable = true ∧ g.content = f.content) →
      checkLoopF junk d fuel (encodeList rs) count = some (count + rs.length) := by
  induction rs with
  | nil =>
    intro fuel count hf _
    cases fuel with
    | zero => omega
    | succ k => simp [checkLoopF, encodeList, splitNul]
  | cons f rest ih =>
    intro fuel count hf hg
    cases fuel with
    | zero => omega
    | succ k =>
      obtain ⟨hne, hnz, hlen, g, hlook, hgo, hgc⟩ := hg f (List.mem_cons_self f rest)
      have hgrest := fun x hx => hg x (List.mem_cons_of_mem f hx)
      rw [encodeList_cons,
        checkLoopF_cons junk d k f.name f.content (encodeList rest) g hne hnz hlen hlook
          hgo hgc count]
      rw [ih k (count + 1) (by simp at hf; omega) hgrest]
      simp
      omega

theorem lookupTop_self (d : List SrcFile) (hflat : Flat d)
    (hnd : (d.map fun f => f.name).Nodup) (f : SrcFile) (hf : f ∈ d) :
    lookupTop d f.name = some f := by
  induction d with
  | nil => cases hf
  | cons a l ih =>
    have hand : (a.name ∉ l.map fun g => g.name) ∧ (l.map fun g => g.name).Nodup := by
      simpa [List.nodup_cons] using hnd
    rcases List.mem_cons.mp hf with rfl | hfl
    · have ha : f.sub = [] := hflat f (List.mem_cons_self f l)
      simp [lookupTop, List.find?, ha]
    · have hanef : a.name ≠ f.name := by
        intro he
        exact hand.1 (he ▸ List.mem_map_of_mem (fun g => g.name) hfl)
      have hrec := ih (fun g hg => hflat g (List.mem_cons_of_mem a hg)) hand.2 hfl
      simpa [lookupTop, List.find?, hanef] using hrec

theorem find?_eq_head_filter {α : Type} (p : α → Bool) (l : List α) :
    l.find? p = (l.filter p).head? := by
  induction l with
  | nil => rfl
  | cons a l ih =>
    cases h : p a
    · simp only [List.find?, List.filter, h, ih]
    · simp only [List.find?, List.filter, h, List.head?]

theorem filter_of_map {α β : Type} (f : α → β) (p : β → Bool) (l : List α) :
    (l.map f).filter p = (l.filter fun a => p (f a)).map f := by
  induction l with
  | nil => rfl
  | cons a l ih => cases h : p (f a) <;> simp [List.filter, h, ih]

theorem filter_reverse_comm {α : Type} (p : α → Bool) (l : List α) :
    l.reverse.filter p = (l.filter p).reverse := by
  induction l with
  | nil => rfl
  | cons a l ih => cases h : p a <;> simp [List.filter, List.filter_append, h, ih]

theorem extractedContent_map (d : List SrcFile) (N : List Byte) :
    extractedContent (d.map fun f => (f.name, f.content)) N =
      ((d.filter fun f => decide (f.name = N)).getLast?).map fun f => f.content := by
  rw [extractedContent, ← List.map_reverse, find?_eq_head_filter, filter_of_map]
  simp only [filter_reverse_comm, List.head?_reverse]
  cases h : (d.filter fun f => decide (f.name = N)).getLast? <;> simp [h]

theorem filter_name_of_nodup (d : List SrcFile) (hnd : (d.map fun f => f.name).Nodup)
    (f : SrcFile) (hf : f ∈ d) :
    (d.filter fun g => decide (g.name = f.name)) = [f] := by
  induction d with
  | nil => cases hf
  | cons a l ih =>
    have hand : (a.name ∉ l.map fun g => g.name) ∧ (l.map fun g => g.name).Nodup := by
      simpa [List.nodup_cons] using hnd
    rcases List.mem_cons.mp hf with rfl | hfl
    · have hnil : (l.filter fun g => decide (g.name = f.name)) = [] := by
        rw [List.filter_eq_nil_iff]
        intro g hg hgname
        exact hand.1 ((by simpa using hgname : g.name = f.name) ▸
          List.mem_map_of_mem (fun x => x.name) hg)
      simp [List.filter_cons, hnil]
    · have hanef : a.name ≠ f.name := by
        intro he
        exact hand.1 (he ▸ List.mem_map_of_mem (fun g => g.name) hfl)
      simp [List.filter_cons, hanef, ih hand.2 hfl]

/-! ### Claim theorems -/

/-- Claim C1 (code bug): the verifier's content comparison is NOT a full byte-for-byte
equality check.  Line 147 compares the two buffers with `strcmp`, which stops at the first
NUL byte: with record content `97 0 98` in the archive and live content `97 0 99` on disk
(equal sizes, differing after the embedded zero), `checkArchive` returns `true`, so the
next `archiveFiles` call would NOT detect the modified byte, contradicting the claim that
it returns false whenever any position differs. -/
theorem c1_strcmp_not_bytewise :
    ([97, 0, 98] : List Byte) ≠ [97, 0, 99] ∧
    checkArchive (fun _ => 0) (some arcC1) dirC1 = true :=
  ⟨by decide, by decide⟩

/-- Claim C2 counterexample: the round trip is not exact for every directory.  For `dirZF`
(an empty file scanned before a nonempty one) the empty `rdbuf` insertion sets the archive
stream's failbit, so file `97` is lost: extraction recreates only `[98]` although the
source had files `98` and `97`.  For `dirColl` (two files in different subdirectories
sharing base name `97`) both records are written to the same flat output path, leaving a
single file. -/
theorem c2_counterexample :
    (unarchiveFiles (fun _ => 0) (fun _ => true) (archiveBytes dirZF)).map
        (fun p => p.1) = [[98]] ∧
    dirZF.map (fun f => f.name) = [[98], [97]] ∧
    extractedContent (unarchiveFiles (fun _ => 0) (fun _ => true) (archiveBytes dirZF))
        [97] = none ∧
    (unarchiveFiles (fun _ => 0) (fun _ => true) (archiveBytes dirColl)).map
        (fun p => p.1) = [[97], [97]] ∧
    extractedContent (unarchiveFiles (fun _ => 0) (fun _ => true) (archiveBytes dirColl))
        [97] = some [121, 122] :=
  ⟨by decide, by decide, by decide, by decide, by decide⟩

/-- Claim C2 (amended): for every directory whose files have pairwise-distinct base names,
all open for reading, and in which no empty file precedes a further file in scan order,
`archiveFiles` followed by `unarchiveFiles` reproduces exactly the scanned files: the
write list is precisely the scanned `(name, content)` list, and the extracted flat
directory holds every file's exact content under its name. -/
theorem c2_round_trip (junk : Nat → Byte) (d : List SrcFile) (hg : GoodNames d)
    (hnd : (d.map fun f => f.name).Nodup) (hopen : AllOpen d) (hne : NoEarlyEmpty d) :
    unarchiveFiles junk (fun _ => true) (archiveBytes d) =
      d.map (fun f => (f.name, f.content)) ∧
    ∀ f ∈ d, extractedContent (unarchiveFiles junk (fun _ => true) (archiveBytes d))
      f.name = some f.content := by
  have henc := archiveBytes_eq_encodeList d hopen hne
  have hmain : unarchiveFiles junk (fun _ => true) (archiveBytes d) =
      d.map fun f => (f.name, f.content) := by
    rw [henc]
    exact unarchiveFiles_encode junk d hg
  refine ⟨hmain, fun f hf => ?_⟩
  rw [hmain, extractedContent_map, filter_name_of_nodup d hnd f hf]
  simp

/-- Witness for the amended C2 theorem at the spec's own scenario `dirRT`
(`a.txt` = `xyz`, `b.bin` empty): the hypotheses hold and the round trip is exact. -/
theorem c2_round_trip_witness :
    GoodNames dirRT ∧ (dirRT.map fun f => f.name).Nodup ∧ AllOpen dirRT ∧
    NoEarlyEmpty dirRT ∧
    unarchiveFiles (fun _ => 0) (fun _ => true) (archiveBytes dirRT) =
      [([97], [120, 121, 122]), ([98], [])] :=
  ⟨by decide, by decide, by decide, by decide, by
    rw [(c2_round_trip (fun _ => 0) dirRT (by decide) (by decide) (by decide)
      (by decide)).1]
    decide⟩

/-- Claim C3 counterexample: after `archiveFiles` archives `dirC3` (one file inside
subdirectory `s`), the verifier decodes the record for base name `97` but looks it up at
the flat path `folderPath + "/97"`, where no file exists; it returns `false` (the claim
says it returns `true`), and the second `archiveFiles` call performs a write. -/
theorem c3_counterexample :
    checkArchive (fun _ => 0) (some (archiveBytes dirC3)) dirC3 = false ∧
    archiveFiles (fun _ => 0) (some (archiveBytes dirC3)) true dirC3 =
      (some (archiveBytes dirC3), true) :=
  ⟨by decide, by decide⟩

/-- Claim C3 (amended): for every FLAT directory (all regular files directly in the root)
with distinct base names, all files readable, and no empty file preceding a further file
in scan order, a second `archiveFiles` call with no intervening change performs no write:
the verifier returns true, the call returns early, and the archive bytes are unchanged. -/
theorem c3_idempotent_flat (junk : Nat → Byte) (d : List SrcFile) (hg : GoodNames d)
    (hflat : Flat d) (hnd : (d.map fun f => f.name).Nodup) (hopen : AllOpen d)
    (hne : NoEarlyEmpty d) :
    archiveFiles junk (some (archiveBytes d)) true d = (some (archiveBytes d), false) := by
  have henc := archiveBytes_eq_encodeList d hopen hne
  have hloop := checkLoopF_encode junk d d ((encodeList d).length + 1) 0
    (by have := encodeList_length d; omega)
    (fun f hf => ⟨(hg f hf).1, (hg f hf).2.1, (hg f hf).2.2,
      f, lookupTop_self d hflat hnd f hf, hopen f hf, rfl⟩)
  have hcheck : checkArchive junk (some (archiveBytes d)) d = true := by
    rw [henc]
    simp [checkArchive, hloop, countRegularFiles]
  simp [archiveFiles, hcheck]

/-- Witness for the amended C3 theorem at the flat directory `dirC3W` (one content holds
an embedded zero byte): the second archive call performs no write. -/
theorem c3_idempotent_flat_witness :
    GoodNames dirC3W ∧ Flat dirC3W ∧ (dirC3W.map fun f => f.name).Nodup ∧
    AllOpen dirC3W ∧ NoEarlyEmpty dirC3W ∧
    archiveFiles (fun _ => 0) (some (archiveBytes dirC3W)) true dirC3W =
      (some (archiveBytes dirC3W), false) :=
  ⟨by decide, by decide, by decide, by decide, by decide,
    c3_idempotent_flat (fun _ => 0) dirC3W (by decide) (by decide) (by decide)
      (by decide) (by decide)⟩

/-- Claim C4 (code bug): an unopenable file is NOT skipped entirely.  Lines 69-70 write
the record's `name '\0' size` header before line 73 tries to open the file, so for
`dirC4` (file `97`, size 3, unopenable, followed by openable file `101`) the archive
holds an orphan header for `97` followed by `101`'s record — not the encoding of exactly
the openable files.  Decoding the result then reads `101`'s record bytes as `97`'s
content, producing one wrong file instead of `101`'s record. -/
theorem c4_orphan_header :
    archiveBytes dirC4 = [97, 0] ++ toLE8 3 ++ ([101, 0] ++ toLE8 1 ++ [102]) ∧
    archiveBytes dirC4 ≠
      encodeList [{ sub := [], name := [101], content := [102], openable := true }] ∧
    unarchiveFiles (fun _ => 0) (fun _ => true) (archiveBytes dirC4) =
      [([97], [101, 0, 1])] :=
  ⟨by decide, by decide, by decide⟩

/-- Claim C5 (code bug): when the output file cannot be created, lines 104-106 `continue`
WITHOUT consuming the record's declared content bytes.  On `arcC5` with name `97`
uncreatable, the loop resumes parsing at `97`'s content bytes: the next "name" read is
`120 121 98` (content bytes glued to the next header), so record `98` is never extracted
correctly — contradicting the claim that the content bytes are consumed and subsequent
records still decode. -/
theorem c5_skip_without_consuming :
    unarchiveFiles (fun _ => 0) (fun n => decide (n ≠ [97])) arcC5 =
      [([120, 121, 98], [122])] ∧
    extractedContent
      (unarchiveFiles (fun _ => 0) (fun n => decide (n ≠ [97])) arcC5) [98] = none :=
  ⟨by decide, by decide⟩

/-- Claim C6 counterexample: decoding the truncated archive `arcC6` (declared size 5, two
content bytes available) does not report any error: it silently writes the file `97` with
the full declared size 5, padding the missing bytes with uninitialized buffer memory
(here the junk byte 7). -/
theorem c6_counterexample :
    unarchiveFiles (fun _ => 7) (fun _ => true) arcC6 = [([97], [120, 121, 7, 7, 7])] ∧
    ([120, 121, 7, 7, 7] : List Byte).length = 5 :=
  ⟨by decide, by decide⟩

/-- Claim C6 (amended): there is no `CodecError::Truncated`.  For every archive whose
record declares a size larger than the remaining stream bytes, the short read sets the
stream's eof/fail state, which ends the loop — but a file of the FULL declared size is
still written, its prefix the available bytes and its tail uninitialized buffer memory,
and no further records are produced. -/
theorem c6_truncated_writes_declared_size (junk : Nat → Byte) (name avail : List Byte)
    (size : Nat) (hne : name ≠ []) (hnz : (0 : Byte) ∉ name)
    (hsz : size < 18446744073709551616) (htr : avail.length < size) :
    unarchiveFiles junk (fun _ => true) (name ++ 0 :: (toLE8 size ++ avail)) =
      [(name, avail ++ (List.range (size - avail.length)).map junk)] ∧
    (avail ++ (List.range (size - avail.length)).map junk).length = size := by
  constructor
  · rw [unarchiveFiles]
    simp only [unarLoopF, splitNul_append _ _ hnz]
    rw [if_neg hne]
    simp only [if_true, take8_toLE8, drop8_toLE8, fromLE8_toLE8 _ hsz]
    rw [if_neg (by simp [toLE8_length])]
    rw [if_neg (by omega)]
  · simp
    omega

/-- Witness for the amended C6 theorem at `arcC6` with junk byte 7: the declared-size
file is written. -/
theorem c6_truncated_witness :
    ([97] : List Byte) ≠ [] ∧ (0 : Byte) ∉ ([97] : List Byte) ∧
    (5 : Nat) < 18446744073709551616 ∧ ([120, 121] : List Byte).length < 5 ∧
    unarchiveFiles (fun _ => 7) (fun _ => true) ([97] ++ 0 :: (toLE8 5 ++ [120, 121])) =
      [([97], [120, 121] ++ (List.range (5 - ([120, 121] : List Byte).length)).map
        (fun _ => 7))] :=
  ⟨by decide, by decide, by decide, by decide,
    (c6_truncated_writes_declared_size (fun _ => 7) [97] [120, 121] 5 (by decide)
      (by decide) (by decide) (by decide)).1⟩

/-- Claim C7 (confirmed): whenever the verifier's decode loop ends cleanly having decoded
`k` records, lines 161-167 independently recount the regular files under the folder and
`checkArchive` returns false if that count differs from `k` — a directory with extra
files not in the archive is reported as not equivalent. -/
theorem c7_count_mismatch (junk : Nat → Byte) (data : List Byte) (d : List SrcFile)
    (k : Nat) (hloop : checkLoopF junk d (data.length + 1) data 0 = some k)
    (hcount : countRegularFiles d ≠ k) :
    checkArchive junk (some data) d = false := by
  simp [checkArchive, hloop, hcount]

/-- Witness for the C7 theorem: an empty archive stream decodes to 0 records while the
directory `dirC7W` holds 1 regular file, so the verifier reports not equivalent. -/
theorem c7_count_mismatch_witness :
    checkLoopF (fun _ => 0) dirC7W (List.length ([] : List Byte) + 1) [] 0 = some 0 ∧
    countRegularFiles dirC7W ≠ 0 ∧
    checkArchive (fun _ => 0) (some []) dirC7W = false :=
  ⟨by decide, by decide,
    c7_count_mismatch (fun _ => 0) [] dirC7W 0 (by decide) (by decide)⟩

/-- Claim C8 (confirmed): a directory with zero regular files archives to a zero-length
archive file (the orchestrated call writes empty contents), decoding a zero-length
archive yields zero records (the first name read immediately hits end-of-stream), and
extracting it performs no file writes, leaving the created output directory empty. -/
theorem c8_empty_directory (junk : Nat → Byte) (creatable : List Byte → Bool) :
    archiveBytes [] = [] ∧
    archiveFiles junk none true [] = (some [], true) ∧
    unarchiveFiles junk creatable [] = [] := by
  refine ⟨rfl, ?_, rfl⟩
  simp [archiveFiles, checkArchive, archiveBytes]

/-- Claim C9 (confirmed): when the archive does not exist or cannot be opened for reading
(`none`), `checkArchive` returns false as an ordinary boolean — "needs archiving" — and
the subsequent `archiveFiles` call proceeds to scan and write the archive. -/
theorem c9_missing_archive (junk : Nat → Byte) (d : List SrcFile) :
    checkArchive junk none d = false ∧
    archiveFiles junk none true d = (some (archiveBytes d), true) := by
  refine ⟨rfl, ?_⟩
  simp [archiveFiles, checkArchive]

/-- Claim C10 counterexample: the collision behaviour is not universal.  In `dirC10bad`
two files in different subdirectories share base name `97`, but an empty file scanned
before them set the archive stream's failbit, so NEITHER record was stored: extraction
yields no file `97` at all (the claim says a single file holding the later record's
content). -/
theorem c10_counterexample :
    (dirC10bad.filter fun x => decide (x.name = [97])) =
      [{ sub := [[115]], name := [97], content := [120], openable := true },
       { sub := [[116]], name := [97], content := [121], openable := true }] ∧
    extractedContent
      (unarchiveFiles (fun _ => 0) (fun _ => true) (archiveBytes dirC10bad)) [97] =
      none :=
  ⟨by decide, by decide⟩

/-- Claim C10 (amended): for every directory (all files readable, no empty file preceding
a further file in scan order) holding exactly two records whose base name is `N` — files
`f` and `g` in different subdirectories, `g` scanned later — archiving stores both as
separate records (the extraction write list is the full scanned list, with both entries
named `N`), extraction writes both to the same flat output path, and the extracted
directory ends up with the single file `N` holding the LATER record's content: the round
trip does not reproduce both files. -/
theorem c10_collision_last_wins (junk : Nat → Byte) (d : List SrcFile) (N : List Byte)
    (f g : SrcFile) (hg : GoodNames d) (hopen : AllOpen d) (hne : NoEarlyEmpty d)
    (hfil : (d.filter fun x => decide (x.name = N)) = [f, g]) (_hsub : f.sub ≠ g.sub) :
    unarchiveFiles junk (fun _ => true) (archiveBytes d) =
      d.map (fun x => (x.name, x.content)) ∧
    extractedContent (unarchiveFiles junk (fun _ => true) (archiveBytes d)) N =
      some g.content := by
  have henc := archiveBytes_eq_encodeList d hopen hne
  have hmain : unarchiveFiles junk (fun _ => true) (archiveBytes d) =
      d.map fun x => (x.name, x.content) := by
    rw [henc]
    exact unarchiveFiles_encode junk d hg
  refine ⟨hmain, ?_⟩
  rw [hmain, extractedContent_map, hfil]
  simp [List.getLast?]

/-- Witness for the amended C10 theorem at `dirC10W` (`s/a` = `100 101`, `t/a` = `102`):
the extracted directory holds a single file `97` with the later record's content. -/
theorem c10_collision_witness :
    GoodNames dirC10W ∧ AllOpen dirC10W ∧ NoEarlyEmpty dirC10W ∧
    (dirC10W.filter fun x => decide (x.name = [97])) =
      [{ sub := [[115]], name := [97], content := [100, 101], openable := true },
       { sub := [[116]], name := [97], content := [102], openable := true }] ∧
    extractedContent
      (unarchiveFiles (fun _ => 0) (fun _ => true) (archiveBytes dirC10W)) [97] =
      some [102] :=
  ⟨by decide, by decide, by decide, by decide,
    (c10_collision_last_wins (fun _ => 0) dirC10W [97]
      { sub := [[115]], name := [97], content := [100, 101], openable := true }
      { sub := [[116]], name := [97], content := [102], openable := true }
      (by decide) (by decide) (by decide) (by decide) (by decide)).2⟩
